import Mathlib

/-!
# PowerRAFT client policy engine — formal model

A shallow embedding of the policy-replay / probabilistic-inference core of
the PowerRAFT client (`src/client/Policy.js`, `src/client/LinearPolicy.js`,
and the `Graph` state/direction-inference code).

Modelling conventions:
* JavaScript numbers holding state indices are modelled as `Int` (the code
  computes `a[0] - 1`, which can be negative); probabilities as `ℚ`.
* A JS array/object lookup that yields `undefined` is modelled with `Option`
  or with an explicit default that behaves the way `undefined` behaves in the
  surrounding comparisons (`NodeStatus.undefined` is `== "D"`/`== "U"`-distinct,
  exactly like `undefined`).
* In-place mutation is modelled by state passing; a thrown exception by an
  error value carried next to the (already mutated) state.
-/

/-- Status symbol of one node inside a state string: `"D"`, `"U"`, any other
value (an energized marker such as `"TG0"`), or JS `undefined` from an
out-of-range lookup (which compares unequal to `"D"` and `"U"`, like an
energized marker does). -/
inductive NodeStatus where
  | D : NodeStatus
  | U : NodeStatus
  | energized : Nat → NodeStatus
  | undefined : NodeStatus
deriving DecidableEq, Repr

/-- An outcome of an action: `[nextStateIndex, probability]`. -/
abbrev Outcome := Int × ℚ

/-- The solved policy as received from the server (`states`, `transitions`,
`policy` fields; analysis-only fields are not modelled).  `transitions`
maps a state index to a table of actions (a missing entry is JS
`undefined`); `policy` maps a state index to the recommended action key. -/
structure Policy where
  states : List (List NodeStatus)
  transitions : List (List (Option (List Outcome)))
  policy : List (Option Nat)
deriving DecidableEq

/-- `ACTION_OFFSET` from `Policy.js` (currently `0`; a commented-out `-1`). -/
def ACTION_OFFSET : Int := 0

/-- JS indexing with a possibly negative index: a negative or out-of-range
index yields the default (modelling `undefined`). -/
def getIntD (l : List α) (i : Int) (d : α) : α :=
  if 0 ≤ i then l.getD i.toNat d else d

/-- `this.states[state]` (a missing state behaves as an empty string,
whose every character lookup is `undefined`). -/
def stateStr (pol : Policy) (state : Int) : List NodeStatus :=
  getIntD pol.states state []

/-- `this.states[state][nodeIndex]`. -/
def statusAt (pol : Policy) (state : Int) (nodeIndex : Nat) : NodeStatus :=
  (stateStr pol state).getD nodeIndex .undefined

/-- `this.policy[state]` (may be `undefined`). -/
def policyAt (pol : Policy) (state : Int) : Option Nat :=
  getIntD pol.policy state none

/-- `this.transitions[state]` (the action table of a state). -/
def actionsAt (pol : Policy) (state : Int) : List (Option (List Outcome)) :=
  getIntD pol.transitions state []

/-- `this.transitions[state][key]` for an action key that may itself be
`undefined` (`actions[undefined]` is `undefined`). -/
def lookupAction (pol : Policy) (state : Int) (key : Option Nat) :
    Option (List Outcome) :=
  match key with
  | none => none
  | some k => (actionsAt pol state).getD k none

/-- `this.transitions[state][this.policy[state]]` — the policy-recommended
action of a state, the `action` local of the probability functions. -/
def actionAt (pol : Policy) (state : Int) : Option (List Outcome) :=
  lookupAction pol state (policyAt pol state)

/-!
## `_energizationProbability` — depth-bounded recursive query

Translation of `InteractivePolicy._energizationProbability(state, nodeIndex,
depth)` (`src/client/Policy.js`).  The recursion decreases `depth`, exactly
as in the source.  Note that this function interprets an outcome's stored
index `a[0]` as 1-based: the target state it recurses into is `a[0] - 1`.
-/

/-- `_energizationProbability` translated from the source. -/
def energizationProbability (pol : Policy) (nodeIndex : Nat) :
    (state : Int) → (depth : Nat) → ℚ
  | state, 0 =>
      -- let s = this.states[state][nodeIndex]
      -- if(depth==0) return (s === "D" || s === "U") ? 0 : 1;
      let s := statusAt pol state nodeIndex
      if s = .D ∨ s = .U then 0 else 1
  | state, depth + 1 =>
      let s := statusAt pol state nodeIndex
      if s = .D then 0
      else if s ≠ .U then 1
      else
        match actionAt pol state with
        | none => 0          -- if(!action) return 0;
        | some action =>
          -- if(action.length == 1 && action[0][0]-1 == state) return 0;
          if action.length = 1 ∧ (action.headD (0, 0)).1 - 1 = state then 0
          else
            -- action.map(a => a[0]-1 == state ? 0
            --                 : a[1]*recurse(a[0]-1, nodeIndex, depth-1))
            --       .reduce((a,b) => a+b, 0)
            (action.map (fun a =>
              if a.1 - 1 = state then 0
              else a.2 * energizationProbability pol nodeIndex (a.1 - 1) depth)).foldl
              (· + ·) 0

/-- The recursive definition of the depth-bounded energization probability as
the specification states it: at `d = 0` it is 1 iff the node's status is
neither Damaged nor Unknown; at `d > 0` it is 0 for a Damaged node, 1 for an
energized node, 0 when the state has no policy-mapped action or its action is
a sole self-loop, and otherwise the sum over the policy action's outcomes of
the outcome probability times the value at the outcome's target state at
depth `d - 1`, a self-loop outcome contributing 0. -/
def energizationProbabilitySpec (pol : Policy) (nodeIndex : Nat) :
    (state : Int) → (depth : Nat) → ℚ
  | state, 0 =>
      if statusAt pol state nodeIndex = .D ∨ statusAt pol state nodeIndex = .U
      then 0 else 1
  | state, depth + 1 =>
      let s := statusAt pol state nodeIndex
      if s = .D then 0
      else if s ≠ .U then 1
      else
        match actionAt pol state with
        | none => 0
        | some action =>
          if action.length = 1 ∧ (action.headD (0, 0)).1 - 1 = state then 0
          else
            (action.map (fun a =>
              if a.1 - 1 = state then 0
              else a.2 * energizationProbabilitySpec pol nodeIndex (a.1 - 1) depth)).sum

lemma foldl_add_eq_sum (l : List ℚ) (x : ℚ) : l.foldl (· + ·) x = x + l.sum := by
  induction l generalizing x with
  | nil => simp
  | cons a t ih => simp [List.foldl_cons, ih, add_assoc]

/-- C1: the interactive cursor's depth-bounded energization probability
(`_energizationProbability`) satisfies, for every state, node and depth, the
recursive definition stated by the specification. -/
theorem energizationProbability_eq_spec (pol : Policy) (nodeIndex : Nat)
    (state : Int) (depth : Nat) :
    energizationProbability pol nodeIndex state depth =
      energizationProbabilitySpec pol nodeIndex state depth := by
  induction depth generalizing state with
  | zero => rfl
  | succ d ih =>
    rw [energizationProbability, energizationProbabilitySpec]
    by_cases hD : statusAt pol state nodeIndex = .D
    · simp [hD]
    · by_cases hU : statusAt pol state nodeIndex = .U
      · simp only [hD, if_false, hU, ne_eq, not_true_eq_false, if_false]
        cases hact : actionAt pol state with
        | none => rfl
        | some action =>
          simp only
          by_cases hsl : action.length = 1 ∧ (action.headD (0, 0)).1 - 1 = state
          · rw [if_pos hsl, if_pos hsl]
          · rw [if_neg hsl, if_neg hsl, foldl_add_eq_sum, zero_add]
            refine congrArg List.sum (List.map_congr_left ?_)
            intro a _
            by_cases hself : a.1 - 1 = state
            · simp [hself]
            · simp [hself, ih]
      · simp [hD, hU]

/-!
## The interactive policy cursor (`InteractivePolicy`)

Mutable fields of the cursor (`this.state`, `this.actionNum`, `this.next`,
`this.end`, `this.previousStates`) become a record; each method returns the
updated record.  The cached `this.actions`/`this.action` fields are always
`transitions[this.state]` / `actions[this.actionNum]` (every state change
goes through `setState`/`setStateAndAction`), so they are recomputed on
demand instead of stored.  The `graph.setState(...)` display calls inside
`setAction`/`setNext` touch only the rendering collaborator and are omitted
here (the graph itself is modelled separately below).
-/

/-- One history entry `{state, actionNum, next}` pushed by `nextState`. -/
structure HistEntry where
  state : Int
  actionNum : Option Nat
  next : Option Nat
deriving DecidableEq, Repr

/-- The interactive cursor's mutable state.  The source's `this.end` flag is
called `ended` (`end` is reserved in Lean); `next` is `none` when the JS
field is `null`/`undefined`. -/
structure Cursor where
  state : Int
  actionNum : Option Nat
  next : Option Nat
  ended : Bool
  previousStates : List HistEntry
deriving DecidableEq, Repr

/-- The `this.end` value that `setAction` computes for a state and action
key: `true` when the looked-up action is missing, or when it has exactly one
outcome whose target (`action[0][0] + ACTION_OFFSET`) is the state itself. -/
def endedFor (pol : Policy) (state : Int) (key : Option Nat) : Bool :=
  match lookupAction pol state key with
  | some action =>
      action.length == 1 && ((action.headD (0, 0)).1 + ACTION_OFFSET == state)
  | none => true

/-- `InteractivePolicy.setAction(actionNum, next)`.  When `next` is `null`
or the cursor ended, the source only reports history snapshots to the
renderer (omitted) and leaves `this.next` untouched; otherwise it calls
`setNext(next)`, which stores the chosen outcome index. -/
def setAction (pol : Policy) (c : Cursor) (actionNum : Option Nat)
    (next : Option Nat) : Cursor :=
  let c := { c with actionNum := actionNum }
  let ended := endedFor pol c.state actionNum
  if next.isNone || ended then { c with ended := ended }
  else { c with ended := ended, next := next }

/-- `InteractivePolicy.setState(state, next = 0)`. -/
def Cursor.setState (pol : Policy) (c : Cursor) (state : Int)
    (next : Option Nat) : Cursor :=
  setAction pol { c with state := state } (policyAt pol state) next

/-- `InteractivePolicy.setStateAndAction(state, action, next = 0)`. -/
def setStateAndAction (pol : Policy) (c : Cursor) (state : Int)
    (action : Option Nat) (next : Option Nat) : Cursor :=
  setAction pol { c with state := state } action next

/-- `this.action[this.next][0] + ACTION_OFFSET` — the target of the
currently selected outcome. -/
def selectedTarget (pol : Policy) (c : Cursor) : Int :=
  (((lookupAction pol c.state c.actionNum).getD []).getD (c.next.getD 0)
    (0, 0)).1 + ACTION_OFFSET

/-- `InteractivePolicy.nextState()`: push `{state, actionNum, next}` and
advance to the selected outcome's target (with the default `next = 0`). -/
def Cursor.nextState (pol : Policy) (c : Cursor) : Cursor :=
  let c' := { c with previousStates :=
    c.previousStates ++ [⟨c.state, c.actionNum, c.next⟩] }
  Cursor.setState pol c' (selectedTarget pol c) (some 0)

/-- The error thrown by `previousState` on an empty history
(`"There is no previous state"` in the source, with an apostrophe). -/
inductive CursorError where
  | noPreviousState : CursorError
deriving DecidableEq, Repr

/-- `InteractivePolicy.previousState()`: pop the last history entry and
restore it, or throw when the history is empty.  `Array.pop()` on an empty
array returns `undefined` without mutating anything, so the error case
leaves the cursor exactly as it was. -/
def Cursor.previousState (pol : Policy) (c : Cursor) :
    Cursor × Option CursorError :=
  match c.previousStates.getLast? with
  | none => (c, some .noPreviousState)
  | some prev =>
      (setStateAndAction pol { c with previousStates := c.previousStates.dropLast }
        prev.state prev.actionNum prev.next, none)

/-- `InteractivePolicy.nextStateAvailable()` (`!this.end`); the spec calls
the complementary query `atEnd()`. -/
def nextStateAvailable (c : Cursor) : Bool := !c.ended

/-- The `InteractivePolicy` constructor with `initialize = true`:
`this.end = false; this.previousStates = []; this.setState(0)` (the
`setState` default selects outcome `0`). -/
def interactivePolicyInit (pol : Policy) : Cursor :=
  Cursor.setState pol
    { state := 0, actionNum := none, next := none, ended := false,
      previousStates := [] } 0 (some 0)

/-- C3: from a non-ended configuration with a chosen outcome index,
`nextState()` followed by `previousState()` restores exactly the prior
`(state, actionNum, next)` triple, the `ended` flag and the history stack —
the advanced-then-rewound cursor is the original cursor, with no error. -/
lemma setAction_previousStates (pol : Policy) (c : Cursor) (a next : Option Nat) :
    (setAction pol c a next).previousStates = c.previousStates := by
  unfold setAction
  dsimp only
  split <;> rfl

theorem nextState_previousState_roundtrip (pol : Policy) (c : Cursor)
    (hended : c.ended = false)
    (hlive : endedFor pol c.state c.actionNum = false)
    (i : Nat) (hnext : c.next = some i) :
    Cursor.previousState pol (Cursor.nextState pol c) = (c, none) := by
  have hps : (Cursor.nextState pol c).previousStates
      = c.previousStates ++ [⟨c.state, c.actionNum, c.next⟩] := by
    unfold Cursor.nextState Cursor.setState
    rw [setAction_previousStates]
  unfold Cursor.previousState
  rw [hps, List.getLast?_concat, List.dropLast_concat]
  cases c with
  | mk state actionNum next ended previousStates =>
    simp only at hended hnext
    subst hended hnext
    simp only at hlive ⊢
    simp [setStateAndAction, setAction, hlive]

/-- A two-state policy whose state 0 recommends the single outcome
`[1, 1.0]` (target state `1`, which is energized): a live, non-ended start
configuration. -/
def policyTwoStep : Policy where
  states := [[.U], [.energized 0]]
  transitions := [[some [(1, 1)]], [some [(1, 1)]]]
  policy := [some 0, some 0]

/-- Witness for C3 at a concrete cursor: the freshly constructed cursor on
`policyTwoStep` is non-ended with outcome 0 selected, and advancing then
rewinding it restores it exactly. -/
theorem nextState_previousState_roundtrip_witness :
    (interactivePolicyInit policyTwoStep).ended = false ∧
    endedFor policyTwoStep (interactivePolicyInit policyTwoStep).state
      (interactivePolicyInit policyTwoStep).actionNum = false ∧
    (interactivePolicyInit policyTwoStep).next = some 0 ∧
    Cursor.previousState policyTwoStep
        (Cursor.nextState policyTwoStep (interactivePolicyInit policyTwoStep)) =
      (interactivePolicyInit policyTwoStep, none) :=
  ⟨by decide, by decide, by decide,
    nextState_previousState_roundtrip policyTwoStep
      (interactivePolicyInit policyTwoStep) (by decide) (by decide) 0 (by decide)⟩

/-- C4: rewinding a cursor whose history stack is empty yields the
"no previous state" error and returns the cursor completely unchanged
(`Array.pop()` on the empty history mutates nothing, and the throw happens
before any assignment). -/
theorem previousState_empty_history (pol : Policy) (c : Cursor)
    (h : c.previousStates = []) :
    Cursor.previousState pol c = (c, some .noPreviousState) := by
  unfold Cursor.previousState
  rw [h]
  rfl

/-- Witness for C4: the freshly constructed cursor has an empty history, and
rewinding it errors without changing it. -/
theorem previousState_empty_history_witness :
    (interactivePolicyInit policyTwoStep).previousStates = [] ∧
    Cursor.previousState policyTwoStep (interactivePolicyInit policyTwoStep) =
      (interactivePolicyInit policyTwoStep, some .noPreviousState) :=
  ⟨by decide,
    previousState_empty_history policyTwoStep
      (interactivePolicyInit policyTwoStep) (by decide)⟩

/-- `(setAction …).ended` is exactly `endedFor` of the state/action pair. -/
lemma setAction_ended (pol : Policy) (c : Cursor) (a next : Option Nat) :
    (setAction pol c a next).ended = endedFor pol c.state a := by
  unfold setAction
  dsimp only
  split <;> rfl

lemma endedFor_iff (pol : Policy) (s : Int) (a : Option Nat) :
    endedFor pol s a = true ↔
      lookupAction pol s a = none ∨
      ∃ act, lookupAction pol s a = some act ∧ act.length = 1 ∧
        (act.headD (0, 0)).1 + ACTION_OFFSET = s := by
  unfold endedFor
  cases h : lookupAction pol s a with
  | none => simp [h]
  | some act =>
    simp only [h, Bool.and_eq_true, beq_iff_eq, Option.some.injEq,
      reduceCtorEq, false_or]
    constructor
    · rintro ⟨h1, h2⟩
      exact ⟨act, rfl, h1, h2⟩
    · rintro ⟨act', hact', h1, h2⟩
      subst hact'
      exact ⟨h1, h2⟩

/-- A policy whose state 0's sole action has the single outcome `[0, 1.0]`,
whose target (`0 + ACTION_OFFSET`) is state 0 itself. -/
def policySelfLoop : Policy where
  states := [[.U]]
  transitions := [[some [(0, 1)]]]
  policy := [some 0]

/-- C5: after any `setAction` or `setState` call the `ended` flag is true
iff the looked-up action is absent from the transition table for the current
state, or it has exactly one outcome whose target state index equals the
current state; and the cursor freshly constructed on `policySelfLoop`
reports `ended = true` (no next state available) before any advance. -/
theorem ended_flag_characterization :
    (∀ (pol : Policy) (c : Cursor) (a next : Option Nat),
      (setAction pol c a next).ended = true ↔
        lookupAction pol c.state a = none ∨
        ∃ act, lookupAction pol c.state a = some act ∧ act.length = 1 ∧
          (act.headD (0, 0)).1 + ACTION_OFFSET = c.state) ∧
    (∀ (pol : Policy) (c : Cursor) (s : Int) (next : Option Nat),
      (Cursor.setState pol c s next).ended = true ↔
        lookupAction pol s (policyAt pol s) = none ∨
        ∃ act, lookupAction pol s (policyAt pol s) = some act ∧ act.length = 1 ∧
          (act.headD (0, 0)).1 + ACTION_OFFSET = s) ∧
    (interactivePolicyInit policySelfLoop).ended = true ∧
    nextStateAvailable (interactivePolicyInit policySelfLoop) = false := by
  refine ⟨?_, ?_, by decide, by decide⟩
  · intro pol c a next
    rw [setAction_ended, endedFor_iff]
  · intro pol c s next
    rw [Cursor.setState, setAction_ended, endedFor_iff]

/-!
## `_energizationProbabilities` — iterative work-queue profile

Translation of `InteractivePolicy._energizationProbabilities(state0,
nodeIndex)`.  The source's `while(queue.length > 0)` loop need not terminate
on policies whose transition graph has a cycle longer than a self-loop, so
the loop is given explicit fuel and returns `none` when the fuel runs out
(`some results` corresponds to a terminating JS execution).

The loop keeps item depths contiguous: every processed item has
`depth ≤ results.length`, so the source's sparse-array write
`results[depth] = results[depth-1]` (executed when `results[depth]` is
`undefined`, i.e. `depth = results.length`) is an append of the current last
entry, and `results[depth] += p` hits an existing entry.
-/

/-- A work-queue item `{state, p, depth}`. -/
structure QItem where
  state : Int
  p : ℚ
  depth : Nat
deriving DecidableEq, Repr

/-- One-variable-per-field translation of the `while` loop of
`_energizationProbabilities`. -/
def epLoop (pol : Policy) (nodeIndex : Nat) :
    Nat → List QItem → List ℚ → Option (List ℚ)
  | _, [], results => some results
  | 0, _ :: _, _ => none
  | fuel + 1, item :: rest, results =>
      -- let {state, p, depth} = queue.shift(); //fifo
      -- if(typeof results[depth] === "undefined") results[depth] = results[depth-1];
      let results :=
        if item.depth < results.length then results
        else results ++ [results.getD (item.depth - 1) 0]
      let s := statusAt pol item.state nodeIndex
      if s = .D then epLoop pol nodeIndex fuel rest results  -- nothing to see
      else if s ≠ .U then
        -- results[depth] += p; //energized
        epLoop pol nodeIndex fuel rest
          (results.set item.depth (results.getD item.depth 0 + item.p))
      else
        match actionAt pol item.state with
        | none => epLoop pol nodeIndex fuel rest results
        | some action =>
            -- for a of action: skip self-loops, push {a[0]-1, p*a[1], depth+1}
            let pushed := (action.filter (fun a => ¬ (a.1 - 1 = item.state))).map
              (fun a => ⟨a.1 - 1, item.p * a.2, item.depth + 1⟩)
            epLoop pol nodeIndex fuel (rest ++ pushed) results

/-- `_energizationProbabilities(state0, nodeIndex)`: queue seeded with
`{state0, 1, 0}`, results seeded with `[0]`. -/
def energizationProbabilities (pol : Policy) (fuel : Nat) (state0 : Int)
    (nodeIndex : Nat) : Option (List ℚ) :=
  epLoop pol nodeIndex fuel [⟨state0, 1, 0⟩] [0]

/-- `energizationProbabilities(nodeIndex)` on the interactive cursor —
the same loop run from the cursor's current state. -/
def cursorEnergizationProbabilities (pol : Policy) (c : Cursor) (fuel : Nat)
    (nodeIndex : Nat) : Option (List ℚ) :=
  energizationProbabilities pol fuel c.state nodeIndex

/-- The solver contract assumed by the profile's monotonicity: every outcome
probability stored in the transition table is nonnegative. -/
def nonnegProbs (pol : Policy) : Prop :=
  ∀ tbl ∈ pol.transitions, ∀ oa ∈ tbl, ∀ a ∈ oa.getD [], (0 : ℚ) ≤ a.2

instance (pol : Policy) : Decidable (nonnegProbs pol) := by
  unfold nonnegProbs
  infer_instance

lemma getD_mem_or (l : List α) (n : Nat) (d : α) :
    l.getD n d ∈ l ∨ l.getD n d = d := by
  by_cases h : n < l.length
  · rw [List.getD_eq_getElem l d h]
    exact Or.inl (List.getElem_mem h)
  · exact Or.inr (List.getD_eq_default l d (le_of_not_lt h))

lemma actionAt_prob_nonneg (pol : Policy) (hpol : nonnegProbs pol) (s : Int)
    (act : List Outcome) (h : actionAt pol s = some act) :
    ∀ a ∈ act, (0 : ℚ) ≤ a.2 := by
  intro a ha
  rw [actionAt] at h
  cases hk : policyAt pol s with
  | none =>
    rw [hk] at h
    simp only [lookupAction] at h
    cases h
  | some k =>
    rw [hk] at h
    simp only [lookupAction] at h
    rcases getD_mem_or (actionsAt pol s) k none with hmem | hnone
    · have htbl : actionsAt pol s ∈ pol.transitions ∨ actionsAt pol s = [] := by
        unfold actionsAt getIntD
        split
        · exact (getD_mem_or _ _ _).imp id id
        · exact Or.inr rfl
      rcases htbl with htbl | hempty
      · have hoam : some act ∈ actionsAt pol s := h ▸ hmem
        have := hpol _ htbl (some act) hoam a
        simpa using this ha
      · rw [hempty] at hmem
        simp at hmem
    · rw [hnone] at h
      cases h

lemma head?_append_singleton (l : List ℚ) (x : ℚ) (h : l ≠ []) :
    (l ++ [x]).head? = l.head? := by
  cases l with
  | nil => exact absurd rfl h
  | cons a t => rfl

lemma head?_set_succ (l : List ℚ) (m : Nat) (v : ℚ) :
    (l.set (m + 1) v).head? = l.head? := by
  cases l <;> rfl

lemma head?_set_of_pos (l : List ℚ) (i : Nat) (hi : 1 ≤ i) (v : ℚ) :
    (l.set i v).head? = l.head? := by
  cases i with
  | zero => omega
  | succ m => exact head?_set_succ l m v

lemma chain'_le_append_last (l : List ℚ) (h : List.Chain' (· ≤ ·) l)
    (hne : l ≠ []) :
    List.Chain' (· ≤ ·) (l ++ [l.getD (l.length - 1) 0]) := by
  rw [List.chain'_append]
  refine ⟨h, List.chain'_singleton _, ?_⟩
  intro x hx y hy
  simp only [List.head?_cons, Option.mem_def, Option.some.injEq] at hy
  have hlt : l.length - 1 < l.length := by
    cases l with
    | nil => exact absurd rfl hne
    | cons a t => simp
  rw [List.getLast?_eq_getElem?, List.getElem?_eq_getElem hlt] at hx
  simp only [Option.mem_def, Option.some.injEq] at hx
  subst hy
  rw [List.getD_eq_getElem l 0 hlt, ← hx]

lemma chain'_le_set_last_aux :
    ∀ (l : List ℚ) (v : ℚ), List.Chain' (· ≤ ·) l →
      l.getD (l.length - 1) 0 ≤ v →
      List.Chain' (· ≤ ·) (l.set (l.length - 1) v)
  | [], _, _, _ => by simp
  | [_], _, _, _ => by simp
  | a :: b :: t, v, h, hv => by
      have hhead := (List.chain'_cons'.mp h).1
      have htail := (List.chain'_cons'.mp h).2
      have hv' : (b :: t).getD ((b :: t).length - 1) 0 ≤ v := by
        simpa using hv
      have hrec := chain'_le_set_last_aux (b :: t) v htail hv'
      show List.Chain' (· ≤ ·) (a :: (b :: t).set ((b :: t).length - 1) v)
      rw [List.chain'_cons']
      refine ⟨?_, hrec⟩
      intro z hz
      cases t with
      | nil =>
        have hh : ((b :: ([] : List ℚ)).set ((b :: ([] : List ℚ)).length - 1)
            v).head? = some v := rfl
        rw [hh] at hz
        simp only [Option.mem_def, Option.some.injEq] at hz
        subst hz
        exact le_trans (hhead b rfl) (by simpa using hv)
      | cons c t'' =>
        have hh : ((b :: c :: t'').set ((b :: c :: t'').length - 1) v).head? =
            some b := rfl
        rw [hh] at hz
        simp only [Option.mem_def, Option.some.injEq] at hz
        subst hz
        exact hhead b rfl

lemma chain'_le_set_last (l : List ℚ) (i : Nat) (v : ℚ) (hi : i = l.length - 1)
    (hv : l.getD i 0 ≤ v) (h : List.Chain' (· ≤ ·) l) :
    List.Chain' (· ≤ ·) (l.set i v) := by
  subst hi
  exact chain'_le_set_last_aux l v h hv

lemma mem_pushed {action : List Outcome} {item x : QItem}
    (hx : x ∈ (action.filter (fun a => ¬ (a.1 - 1 = item.state))).map
      (fun a => (⟨a.1 - 1, item.p * a.2, item.depth + 1⟩ : QItem))) :
    (∃ a ∈ action, x.p = item.p * a.2) ∧ x.depth = item.depth + 1 := by
  rcases List.mem_map.mp hx with ⟨a, ha, rfl⟩
  exact ⟨⟨a, (List.mem_filter.mp ha).1, rfl⟩, rfl⟩

/-- The loop invariant of `_energizationProbabilities`: the results list is
nonempty and non-decreasing, item depths in the queue are the current frontier
(`results.length - 1`) followed by the next one (`results.length`), all
cumulative probabilities are nonnegative, and every depth is at least 1.
Under this invariant a terminating run keeps the results non-decreasing and
never touches the depth-0 entry. -/
lemma epLoop_inv (pol : Policy) (n : Nat) (hpol : nonnegProbs pol) :
    ∀ (fuel : Nat) (queue : List QItem) (results r : List ℚ),
    results ≠ [] →
    List.Chain' (· ≤ ·) results →
    (∃ q1 q2, queue = q1 ++ q2 ∧ (∀ x ∈ q1, x.depth + 1 = results.length) ∧
      (∀ x ∈ q2, x.depth = results.length)) →
    (∀ x ∈ queue, 0 ≤ x.p) →
    (∀ x ∈ queue, 1 ≤ x.depth) →
    epLoop pol n fuel queue results = some r →
    List.Chain' (· ≤ ·) r ∧ r.head? = results.head? := by
  intro fuel
  induction fuel with
  | zero =>
    intro queue results r hne hchain _ _ _ hrun
    cases queue with
    | nil =>
      simp only [epLoop, Option.some.injEq] at hrun
      subst hrun
      exact ⟨hchain, rfl⟩
    | cons item rest =>
      simp only [epLoop] at hrun
      cases hrun
  | succ f ih =>
    intro queue results r hne hchain hsplit hp hd hrun
    cases queue with
    | nil =>
      simp only [epLoop, Option.some.injEq] at hrun
      subst hrun
      exact ⟨hchain, rfl⟩
    | cons item rest =>
      obtain ⟨q1, q2, hsp, h1, h2⟩ := hsplit
      have hpitem : 0 ≤ item.p := hp item (List.mem_cons_self _ _)
      have hditem : 1 ≤ item.depth := hd item (List.mem_cons_self _ _)
      have hprest : ∀ x ∈ rest, 0 ≤ x.p :=
        fun x hx => hp x (List.mem_cons_of_mem _ hx)
      have hdrest : ∀ x ∈ rest, 1 ≤ x.depth :=
        fun x hx => hd x (List.mem_cons_of_mem _ hx)
      rw [epLoop] at hrun
      cases q1 with
      | nil =>
        -- the head item is at the frontier's next depth: seed the new entry
        simp only [List.nil_append] at hsp
        have hdep : item.depth = results.length := h2 item (hsp ▸ List.mem_cons_self _ _)
        have hrest2 : ∀ x ∈ rest, x.depth = results.length := by
          intro x hx
          exact h2 x (hsp ▸ List.mem_cons_of_mem _ hx)
        have hseed : ¬ (item.depth < results.length) := by
          rw [hdep]
          exact lt_irrefl _
        simp only [hseed, if_false] at hrun
        have hRAne : results ++ [results.getD (item.depth - 1) 0] ≠ [] := by
          simp
        have hRAlen : (results ++ [results.getD (item.depth - 1) 0]).length =
            results.length + 1 := by simp
        have hRAchain : List.Chain' (· ≤ ·)
            (results ++ [results.getD (item.depth - 1) 0]) := by
          rw [hdep]
          exact chain'_le_append_last results hchain hne
        have hRAhead : (results ++ [results.getD (item.depth - 1) 0]).head? =
            results.head? := head?_append_singleton _ _ hne
        by_cases hD : statusAt pol item.state n = NodeStatus.D
        · rw [if_pos hD] at hrun
          have := ih rest _ r hRAne hRAchain
            ⟨rest, [], (List.append_nil rest).symm,
              fun x hx => by rw [hrest2 x hx, hRAlen],
              fun x hx => absurd hx (List.not_mem_nil x)⟩
            hprest hdrest hrun
          exact ⟨this.1, this.2.trans hRAhead⟩
        · rw [if_neg hD] at hrun
          by_cases hU : statusAt pol item.state n = NodeStatus.U
          · have hUne : ¬ (statusAt pol item.state n ≠ NodeStatus.U) :=
              not_not_intro hU
            rw [if_neg hUne] at hrun
            cases hact : actionAt pol item.state with
            | none =>
              rw [hact] at hrun
              have := ih rest _ r hRAne hRAchain
                ⟨rest, [], (List.append_nil rest).symm,
                  fun x hx => by rw [hrest2 x hx, hRAlen],
                  fun x hx => absurd hx (List.not_mem_nil x)⟩
                hprest hdrest hrun
              exact ⟨this.1, this.2.trans hRAhead⟩
            | some action =>
              rw [hact] at hrun
              simp only at hrun
              have hanonneg := actionAt_prob_nonneg pol hpol item.state action hact
              have := ih (rest ++ (action.filter
                  (fun a => ¬ (a.1 - 1 = item.state))).map
                  (fun a => (⟨a.1 - 1, item.p * a.2, item.depth + 1⟩ : QItem)))
                _ r hRAne hRAchain
                ⟨rest, _, rfl,
                  fun x hx => by rw [hrest2 x hx, hRAlen],
                  fun x hx => by
                    rw [(mem_pushed hx).2, hRAlen, hdep]⟩
                (by
                  intro x hx
                  rcases List.mem_append.mp hx with hx | hx
                  · exact hprest x hx
                  · obtain ⟨⟨a, ha, hxp⟩, _⟩ := mem_pushed hx
                    rw [hxp]
                    exact mul_nonneg hpitem (hanonneg a ha))
                (by
                  intro x hx
                  rcases List.mem_append.mp hx with hx | hx
                  · exact hdrest x hx
                  · rw [(mem_pushed hx).2]
                    omega)
                hrun
              exact ⟨this.1, this.2.trans hRAhead⟩
          · have hUny : statusAt pol item.state n ≠ NodeStatus.U := hU
            rw [if_pos hUny] at hrun
            -- results[depth] += p at the last (fresh) entry
            obtain ⟨m, hm⟩ : ∃ m, item.depth = m + 1 :=
              ⟨item.depth - 1, (Nat.succ_pred_eq_of_pos hditem).symm⟩
            have hidx : item.depth =
                (results ++ [results.getD (item.depth - 1) 0]).length - 1 := by
              rw [hRAlen]
              omega
            have hsetchain : List.Chain' (· ≤ ·)
                ((results ++ [results.getD (item.depth - 1) 0]).set item.depth
                  ((results ++ [results.getD (item.depth - 1) 0]).getD
                    item.depth 0 + item.p)) :=
              chain'_le_set_last _ _ _ hidx
                (le_add_of_nonneg_right hpitem) hRAchain
            have hsethead :
                ((results ++ [results.getD (item.depth - 1) 0]).set item.depth
                  ((results ++ [results.getD (item.depth - 1) 0]).getD
                    item.depth 0 + item.p)).head? = results.head? := by
              rw [head?_set_of_pos _ _ hditem]
              exact hRAhead
            have hsetne :
                ((results ++ [results.getD (item.depth - 1) 0]).set item.depth
                  ((results ++ [results.getD (item.depth - 1) 0]).getD
                    item.depth 0 + item.p)) ≠ [] := by
              intro hcontra
              have := congrArg List.length hcontra
              simp at this
            have hsetlen :
                ((results ++ [results.getD (item.depth - 1) 0]).set item.depth
                  ((results ++ [results.getD (item.depth - 1) 0]).getD
                    item.depth 0 + item.p)).length = results.length + 1 := by
              simp
            have := ih rest _ r hsetne hsetchain
              ⟨rest, [], (List.append_nil rest).symm,
                fun x hx => by rw [hrest2 x hx, hsetlen],
                fun x hx => absurd hx (List.not_mem_nil x)⟩
              hprest hdrest hrun
            exact ⟨this.1, this.2.trans hsethead⟩
      | cons y q1' =>
        -- the head item is at the current frontier depth: entry exists
        have hiy : item = y ∧ rest = q1' ++ q2 := by
          rw [List.cons_append] at hsp
          exact ⟨(List.cons.injEq _ _ _ _).mp hsp |>.1,
            (List.cons.injEq _ _ _ _).mp hsp |>.2⟩
        obtain ⟨hitem, hrest⟩ := hiy
        have hdep : item.depth + 1 = results.length := by
          rw [hitem]
          exact h1 y (List.mem_cons_self _ _)
        have h1' : ∀ x ∈ q1', x.depth + 1 = results.length :=
          fun x hx => h1 x (List.mem_cons_of_mem _ hx)
        have hseed : item.depth < results.length := by omega
        simp only [hseed, if_true] at hrun
        by_cases hD : statusAt pol item.state n = NodeStatus.D
        · rw [if_pos hD] at hrun
          exact ih rest results r hne hchain
            ⟨q1', q2, hrest, h1', h2⟩ hprest hdrest hrun
        · rw [if_neg hD] at hrun
          by_cases hU : statusAt pol item.state n = NodeStatus.U
          · have hUne : ¬ (statusAt pol item.state n ≠ NodeStatus.U) :=
              not_not_intro hU
            rw [if_neg hUne] at hrun
            cases hact : actionAt pol item.state with
            | none =>
              rw [hact] at hrun
              exact ih rest results r hne hchain
                ⟨q1', q2, hrest, h1', h2⟩ hprest hdrest hrun
            | some action =>
              rw [hact] at hrun
              simp only at hrun
              have hanonneg := actionAt_prob_nonneg pol hpol item.state action hact
              rw [hrest, List.append_assoc] at hrun
              have := ih (q1' ++ (q2 ++ (action.filter
                  (fun a => ¬ (a.1 - 1 = item.state))).map
                  (fun a => (⟨a.1 - 1, item.p * a.2, item.depth + 1⟩ : QItem))))
                results r hne hchain
                ⟨q1', _, rfl, h1',
                  fun x hx => by
                    rcases List.mem_append.mp hx with hx | hx
                    · exact h2 x hx
                    · rw [(mem_pushed hx).2, hdep]⟩
                (by
                  intro x hx
                  rcases List.mem_append.mp hx with hx | hx
                  · exact hprest x (hrest ▸ List.mem_append.mpr (Or.inl hx))
                  · rcases List.mem_append.mp hx with hx | hx
                    · exact hprest x (hrest ▸ List.mem_append.mpr (Or.inr hx))
                    · obtain ⟨⟨a, ha, hxp⟩, _⟩ := mem_pushed hx
                      rw [hxp]
                      exact mul_nonneg hpitem (hanonneg a ha))
                (by
                  intro x hx
                  rcases List.mem_append.mp hx with hx | hx
                  · exact hdrest x (hrest ▸ List.mem_append.mpr (Or.inl hx))
                  · rcases List.mem_append.mp hx with hx | hx
                    · exact hdrest x (hrest ▸ List.mem_append.mpr (Or.inr hx))
                    · rw [(mem_pushed hx).2]
                      omega)
                hrun
              exact this
          · have hUny : statusAt pol item.state n ≠ NodeStatus.U := hU
            rw [if_pos hUny] at hrun
            obtain ⟨m, hm⟩ : ∃ m, item.depth = m + 1 :=
              ⟨item.depth - 1, (Nat.succ_pred_eq_of_pos hditem).symm⟩
            have hidx : item.depth = results.length - 1 := by omega
            have hsetchain := chain'_le_set_last results item.depth
              (results.getD item.depth 0 + item.p) hidx
              (le_add_of_nonneg_right hpitem) hchain
            have hsetne : results.set item.depth
                (results.getD item.depth 0 + item.p) ≠ [] := by
              intro hcontra
              have := congrArg List.length hcontra
              simp only [List.length_set, List.length_nil] at this
              exact hne (List.length_eq_zero.mp this)
            have hsethead : (results.set item.depth
                (results.getD item.depth 0 + item.p)).head? = results.head? :=
              head?_set_of_pos _ _ hditem _
            have := ih rest _ r hsetne hsetchain
              ⟨q1', q2, hrest, fun x hx => by rw [h1' x hx, List.length_set],
                fun x hx => by rw [h2 x hx, List.length_set]⟩
              hprest hdrest hrun
            exact ⟨this.1, this.2.trans hsethead⟩

/-- C2: whenever the iterative work-queue profile
`_energizationProbabilities(s, n)` terminates, the returned sequence is
non-decreasing (each entry at depth `d ≥ 1` is at least the entry at depth
`d - 1`) and its first entry is exactly 1 when node `n` is already energized
in the reference state and exactly 0 otherwise — assuming the transition
table's outcome probabilities are nonnegative. -/
theorem energizationProbabilities_monotone (pol : Policy)
    (hpol : nonnegProbs pol) (fuel : Nat) (s0 : Int) (n : Nat) (r : List ℚ)
    (hr : energizationProbabilities pol fuel s0 n = some r) :
    (∀ d, d + 1 < r.length → r.getD d 0 ≤ r.getD (d + 1) 0) ∧
    r.head? = some (if statusAt pol s0 n = .D ∨ statusAt pol s0 n = .U
      then 0 else 1) := by
  have key : List.Chain' (· ≤ ·) r ∧
      r.head? = some (if statusAt pol s0 n = .D ∨ statusAt pol s0 n = .U
        then 0 else 1) := by
    rw [energizationProbabilities] at hr
    cases fuel with
    | zero =>
      simp only [epLoop] at hr
      cases hr
    | succ f =>
      have hstep : epLoop pol n (f + 1) [⟨s0, 1, 0⟩] [0] =
          if statusAt pol s0 n = NodeStatus.D then epLoop pol n f [] [0]
          else if statusAt pol s0 n ≠ NodeStatus.U then
            epLoop pol n f [] ([(0 : ℚ)].set 0 ([(0 : ℚ)].getD 0 0 + 1))
          else
            match actionAt pol s0 with
            | none => epLoop pol n f [] [0]
            | some action =>
                epLoop pol n f ([] ++ (action.filter
                  (fun a => ¬ (a.1 - 1 = s0))).map
                  (fun a => (⟨a.1 - 1, 1 * a.2, 0 + 1⟩ : QItem))) [0] := rfl
      rw [hstep] at hr
      by_cases hD : statusAt pol s0 n = NodeStatus.D
      · rw [if_pos hD] at hr
        simp only [epLoop, Option.some.injEq] at hr
        subst hr
        simp [hD]
      · rw [if_neg hD] at hr
        by_cases hU : statusAt pol s0 n = NodeStatus.U
        · rw [if_neg (not_not_intro hU)] at hr
          cases hact : actionAt pol s0 with
          | none =>
            rw [hact] at hr
            simp only [epLoop, Option.some.injEq] at hr
            subst hr
            simp [hU]
          | some action =>
            rw [hact] at hr
            simp only [List.nil_append] at hr
            have hanonneg := actionAt_prob_nonneg pol hpol s0 action hact
            have := epLoop_inv pol n hpol f _ [0] r (by simp)
              (List.chain'_singleton _)
              ⟨[], _, rfl, by simp, by
                intro x hx
                rcases List.mem_map.mp hx with ⟨a, _, rfl⟩
                rfl⟩
              (by
                intro x hx
                rcases List.mem_map.mp hx with ⟨a, ha, rfl⟩
                simpa using hanonneg a (List.mem_filter.mp ha).1)
              (by
                intro x hx
                rcases List.mem_map.mp hx with ⟨a, _, rfl⟩
                exact le_refl 1)
              hr
            refine ⟨this.1, ?_⟩
            rw [this.2]
            simp [hU]
        · rw [if_pos hU] at hr
          simp only [epLoop, Option.some.injEq, List.getD_cons_zero,
            List.set_cons_zero, zero_add] at hr
          subst hr
          simp [hD, hU]
  refine ⟨?_, key.2⟩
  intro d hdlt
  have hchain := key.1
  rw [List.chain'_iff_get] at hchain
  have hstep := hchain d (by omega)
  rw [List.getD_eq_getElem r 0 (by omega : d < r.length),
    List.getD_eq_getElem r 0 hdlt]
  simpa using hstep

/-- Witness for C2 on `policyTwoStep`: the loop terminates with profile
`[0]` (node 0 is Unknown at state 0 and the only outcome is skipped by the
self-loop guard), which is non-decreasing with first entry 0. -/
theorem energizationProbabilities_monotone_witness :
    nonnegProbs policyTwoStep ∧
    energizationProbabilities policyTwoStep 10 0 0 = some [0] ∧
    ((∀ d, d + 1 < [(0 : ℚ)].length →
        [(0 : ℚ)].getD d 0 ≤ [(0 : ℚ)].getD (d + 1) 0) ∧
      [(0 : ℚ)].head? = some (if statusAt policyTwoStep 0 0 = .D ∨
        statusAt policyTwoStep 0 0 = .U then 0 else 1)) :=
  ⟨by decide, by decide,
    energizationProbabilities_monotone policyTwoStep (by decide) 10 0 0
      [0] (by decide)⟩

/-!
## `_allEnergizationProb` — the cumulative per-node sweep

Translation of `InteractivePolicy._allEnergizationProb(state)`.  The source
contains the line

  `if(a[0]-1 == state) vec.map(() => 0);`

whose computed array is neither returned nor assigned — a dead statement —
so, unlike `_energizationProbability`, the per-outcome self-loop guard has
no effect and the code recurses into `a[0]-1` even when it equals `state`.
The recursion is therefore given fuel; `none` models non-termination
(in the browser: unbounded recursion until the stack overflows).
-/

/-- `_allEnergizationProb` translated from the source, with fuel. -/
def allEnergizationProbFuel (pol : Policy) : Nat → Int → Option (List ℚ)
  | 0, _ => none
  | fuel + 1, state =>
      -- let vec = this.states[state].map(s => s==="D" ? 0 : (s!=="U" ? 1 : null))
      let vec : List (Option ℚ) := (stateStr pol state).map (fun s =>
        if s = .D then some 0 else if s ≠ .U then some 1 else none)
      match actionAt pol state with
      | none => some (vec.map (fun s => s.getD 0))
      | some action =>
        if action.length = 1 ∧ (action.headD (0, 0)).1 - 1 = state then
          some (vec.map (fun s => s.getD 0))
        else
          -- action.map(a => {
          --   if(a[0]-1 == state) vec.map(() => 0);   // dead: result discarded
          --   let mul = vec.map(s => s==null ? a[1] : a[1]*s);
          --   return this._allEnergizationProb(a[0]-1).map((p,i) => p*mul[i]);
          -- }).reduce((a,b) => a.map((n,i) => n+b[i]), vec.map(() => 0))
          (action.mapM (fun a =>
            let mul := vec.map (fun s => match s with
              | none => a.2
              | some v => a.2 * v)
            (allEnergizationProbFuel pol fuel (a.1 - 1)).map (fun rec =>
              rec.mapIdx (fun i p => p * mul.getD i 0)))).map (fun terms =>
            terms.foldl (fun acc b => acc.mapIdx (fun i nv => nv + b.getD i 0))
              (vec.map (fun _ => 0)))

/-- `allEnergizationProb()` — the sweep from the cursor's current state. -/
def allEnergizationProb (pol : Policy) (c : Cursor) (fuel : Nat) :
    Option (List ℚ) :=
  allEnergizationProbFuel pol fuel c.state

/-- `cumulativePfs()` — `1 − p` per node. -/
def cumulativePfs (pol : Policy) (c : Cursor) (fuel : Nat) :
    Option (List ℚ) :=
  (allEnergizationProb pol c fuel).map (fun l => l.map (fun a => 1 - a))

/-- A policy whose state 0 (single Unknown node) has a recommended action
with two outcomes, the first of which targets state 0 itself
(`a[0]-1 = 0`): the configuration the claim's self-loop guard is about. -/
def policySelfLoopBranch : Policy where
  states := [[.U], [.U]]
  transitions := [[some [(1, 1/2), (2, 1/2)]], [none]]
  policy := [some 0, none]

/-- C6 (code bug): on `policySelfLoopBranch` the sweep re-enters state 0
through the self-loop outcome for every amount of fuel — the dead guard line
means the recursion never terminates, contradicting the claimed
self-loop-guarded termination. -/
theorem allEnergizationProb_diverges :
    ∀ fuel, allEnergizationProbFuel policySelfLoopBranch fuel 0 = none := by
  intro fuel
  induction fuel with
  | zero => rfl
  | succ f ih =>
    rw [allEnergizationProbFuel]
    have hact : actionAt policySelfLoopBranch 0 =
        some [(1, 1/2), (2, 1/2)] := rfl
    rw [hact]
    simp only [List.length_cons, List.length_nil]
    rw [if_neg (by simp)]
    have h0 : ((1 : Int) - 1) = (0 : Int) := by norm_num
    simp only [List.mapM_cons, h0, ih, Option.map_none', Option.none_bind,
      Option.map_eq_none']
    rfl

/-!
## The linear policy cursor (`LinearPolicy`)

`LinearPolicy extends InteractivePolicy` with a precomputed best-case path:
`steps`, `fullHistory` and a current `index`.  `getStepsFromPolicy`'s
`while (current < this.states.length)` loop need not terminate when the
policy's first-outcome chain cycles, so it carries fuel (`none` models a
hanging run).
-/

/-- The linear cursor: the interactive cursor plus the precomputed path. -/
structure LinearCursor extends Cursor where
  steps : List Int
  fullHistory : List HistEntry
  index : Nat
deriving DecidableEq, Repr

/-- The `while` loop body of `getStepsFromPolicy`, returning the final
`current` together with the accumulated `steps` and `fullHistory`.  The
source reads `action[0][0]`; when the action is missing, JS would throw —
the model's defaults give target `0 + ACTION_OFFSET` instead (such policies
are outside every theorem below). -/
def getStepsLoop (pol : Policy) : Nat → Int → List Int → List HistEntry →
    Option (Int × List Int × List HistEntry)
  | 0, _, _, _ => none
  | fuel + 1, current, steps, fullHistory =>
      if current < (pol.states.length : Int) then
        let actionNum := policyAt pol current
        let action := lookupAction pol current actionNum
        let next := ((action.getD []).headD (0, 0)).1 + ACTION_OFFSET
        if next = current then some (current, steps, fullHistory)  -- break
        else
          let fullHistory := fullHistory ++ [⟨current, actionNum, some 0⟩]
          -- let nextState = this.states[next]; if(!nextState) break
          if ¬ (0 ≤ next ∧ next < (pol.states.length : Int)) then
            some (current, steps, fullHistory)
          else
            getStepsLoop pol fuel next (steps ++ [next]) fullHistory
      else some (current, steps, fullHistory)

/-- `getStepsFromPolicy()`: run the loop from `current = 0` with
`steps = [0]`, then push the final `current` onto `steps` once more and
duplicate the last history entry.  (When `fullHistory` is empty the source
pushes `undefined`; that phantom entry is never read — `goTo(i)` for a
valid `i` slices strictly fewer entries — so the model simply omits it.) -/
def getStepsFromPolicy (pol : Policy) (fuel : Nat) (lc : LinearCursor) :
    Option LinearCursor :=
  (getStepsLoop pol fuel 0 [0] []).map (fun res =>
    { lc with
        steps := res.2.1 ++ [res.1]
        fullHistory := res.2.2 ++ (match res.2.2.getLast? with
          | some e => [e]
          | none => []) })

/-- `LinearPolicy.goTo(index)`. -/
def goTo (pol : Policy) (lc : LinearCursor) (index : Nat) : LinearCursor :=
  if index = 0 then
    { lc with
        index := index
        toCursor := Cursor.setState pol
          { lc.toCursor with previousStates := [] } (lc.steps.getD 0 0) none }
  else
    { lc with
        index := index
        toCursor := Cursor.setState pol
          { lc.toCursor with previousStates := lc.fullHistory.take (index - 1) }
          (lc.steps.getD (index - 1) 0) (some 0) }

/-- The `LinearPolicy` constructor: the `InteractivePolicy` constructor,
then `updateSteps()` = `getStepsFromPolicy(); goTo(0)`. -/
def linearPolicyInit (pol : Policy) (fuel : Nat) : Option LinearCursor :=
  (getStepsFromPolicy pol fuel
    { toCursor := interactivePolicyInit pol, steps := [], fullHistory := [],
      index := 0 }).map (fun lc => goTo pol lc 0)

lemma setAction_state (pol : Policy) (c : Cursor) (a next : Option Nat) :
    (setAction pol c a next).state = c.state := by
  unfold setAction
  dsimp only
  split <;> rfl

lemma setState_state (pol : Policy) (c : Cursor) (s : Int) (next : Option Nat) :
    (Cursor.setState pol c s next).state = s := by
  unfold Cursor.setState
  rw [setAction_state]

lemma setState_previousStates (pol : Policy) (c : Cursor) (s : Int)
    (next : Option Nat) :
    (Cursor.setState pol c s next).previousStates = c.previousStates := by
  unfold Cursor.setState
  rw [setAction_previousStates]

/-- C7 (amended): `goTo(0)` moves the cursor to `steps[0]` with an empty
previous-states list, and `goTo(i)` for a valid `i ≥ 1` moves it to
`steps[i-1]` — not `steps[i]` — with previous states
`fullHistory[0..i-2]` (i.e. `fullHistory.slice(0, i-1)`). -/
theorem goTo_state_previousStates (pol : Policy) (lc : LinearCursor) (i : Nat)
    (hvalid : i < lc.steps.length) :
    (goTo pol lc i).state = lc.steps.getD (i - 1) 0 ∧
    (goTo pol lc i).previousStates = lc.fullHistory.take (i - 1) := by
  have hmks : ∀ (c : Cursor) (st : List Int) (f : List HistEntry) (n : Nat),
      (LinearCursor.mk c st f n).state = c.state := fun _ _ _ _ => rfl
  have hmkp : ∀ (c : Cursor) (st : List Int) (f : List HistEntry) (n : Nat),
      (LinearCursor.mk c st f n).previousStates = c.previousStates :=
    fun _ _ _ _ => rfl
  unfold goTo
  by_cases h0 : i = 0
  · subst h0
    rw [if_pos rfl]
    constructor
    · rw [hmks, setState_state]
    · rw [hmkp, setState_previousStates]
      rfl
  · rw [if_neg h0]
    constructor
    · rw [hmks, setState_state]
    · rw [hmkp, setState_previousStates]

/-- The linear cursor built on `policyTwoStep` (path `0 → 1`, then the
self-repeating state `1`): `steps = [0, 1, 1]`. -/
def linearCursorTwoStep : LinearCursor :=
  (linearPolicyInit policyTwoStep 10).getD
    ⟨interactivePolicyInit policyTwoStep, [], [], 0⟩

/-- C7 counterexample: on the linear cursor for `policyTwoStep`, index 1 is
valid and `steps[1] = 1`, yet `goTo(1)` sets the current state to `0`
(`steps[0]`), so "goTo(i) sets the current state to steps[i]" is false. -/
theorem goTo_claim_counterexample :
    linearPolicyInit policyTwoStep 10 = some linearCursorTwoStep ∧
    1 < linearCursorTwoStep.steps.length ∧
    linearCursorTwoStep.steps.getD 1 0 = 1 ∧
    (goTo policyTwoStep linearCursorTwoStep 1).state = 0 := by
  refine ⟨by decide, by decide, by decide, by decide⟩

/-- Witness for the amended C7 at the concrete cursor and index 1. -/
theorem goTo_state_previousStates_witness :
    1 < linearCursorTwoStep.steps.length ∧
    (goTo policyTwoStep linearCursorTwoStep 1).state =
      linearCursorTwoStep.steps.getD 0 0 ∧
    (goTo policyTwoStep linearCursorTwoStep 1).previousStates =
      linearCursorTwoStep.fullHistory.take 0 :=
  ⟨by decide,
    (goTo_state_previousStates policyTwoStep linearCursorTwoStep 1
      (by decide)).1,
    (goTo_state_previousStates policyTwoStep linearCursorTwoStep 1
      (by decide)).2⟩

/-!
## `LinearPolicy.successProbability`
-/

/-- A node of the rendering graph (`graph.nodes[i]`) as read by
`successProbability`: its live `status` (`0` = Unknown) and failure
probability `pf`.  Out-of-range node lookups use a nonzero-status default
(the source would throw there). -/
structure GNode where
  status : Int
  pf : ℚ
deriving DecidableEq, Repr

/-- `LinearPolicy.successProbability(index)` translated from the source:
starting from `p = 1`, multiply in `(1 - node.pf)` for every index whose
status in the step state is neither `"D"` nor `"U"` and whose graph node
has `status == 0`. -/
def successProbability (nodes : List GNode) (pol : Policy)
    (lc : LinearCursor) (index : Nat) : ℚ :=
  let step := stateStr pol (lc.steps.getD index 0)
  (List.range step.length).foldl (fun p i =>
    let status := step.getD i .undefined
    let node := nodes.getD i ⟨1, 0⟩
    if (status ≠ .D ∧ status ≠ .U) ∧ node.status = 0 then p * (1 - node.pf)
    else p) 1

/-- The claim's reading of `successProbability`: the product over exactly
the nodes whose status symbol in the step state is Unknown of the survival
factor `(1 - pf)`. -/
def successProbabilityClaim (nodes : List GNode) (pol : Policy)
    (lc : LinearCursor) (index : Nat) : ℚ :=
  let step := stateStr pol (lc.steps.getD index 0)
  (((List.range step.length).filter (fun i => step.getD i .undefined = .U)).map
    (fun i => 1 - (nodes.getD i ⟨1, 0⟩).pf)).prod

lemma foldl_if_mul_prod (l : List Nat) (c : Nat → Prop) [DecidablePred c]
    (f : Nat → ℚ) (init : ℚ) :
    l.foldl (fun p i => if c i then p * f i else p) init =
      init * ((l.filter (fun i => c i)).map f).prod := by
  induction l generalizing init with
  | nil => simp
  | cons a t ih =>
    rw [List.foldl_cons]
    by_cases h : c a
    · rw [if_pos h, ih, List.filter_cons_of_pos (by simpa using h),
        List.map_cons, List.prod_cons]
      ring
    · rw [if_neg h, ih, List.filter_cons_of_neg (by simpa using h)]

/-- C8 (amended): `successProbability(i)` equals the product of `(1 - pf)`
over exactly the nodes whose status symbol in the step-`i` state is
*energized* (neither Damaged nor Unknown) **and** whose graph node status is
Unknown (`0`); nodes that are Unknown in the step state contribute no
factor. -/
theorem successProbability_eq_prod (nodes : List GNode) (pol : Policy)
    (lc : LinearCursor) (index : Nat) :
    successProbability nodes pol lc index =
      (((List.range (stateStr pol (lc.steps.getD index 0)).length).filter
          (fun i =>
            ((stateStr pol (lc.steps.getD index 0)).getD i .undefined ≠ .D ∧
              (stateStr pol (lc.steps.getD index 0)).getD i .undefined ≠ .U) ∧
            (nodes.getD i ⟨1, 0⟩).status = 0)).map
        (fun i => 1 - (nodes.getD i ⟨1, 0⟩).pf)).prod := by
  unfold successProbability
  rw [foldl_if_mul_prod, one_mul]

/-- The single-node graph with an Unknown node of failure probability 1/4. -/
def graphOneUnknown : List GNode := [⟨0, 1/4⟩]

/-- The linear cursor built on `policySelfLoop` (`steps = [0, 0]`, the sole
node Unknown at every step). -/
def linearCursorSelfLoop : LinearCursor :=
  (linearPolicyInit policySelfLoop 10).getD
    ⟨interactivePolicyInit policySelfLoop, [], [], 0⟩

/-- C8 counterexample: at step 0 the sole node's status symbol is Unknown,
so the claim's product is `1 - 1/4 = 3/4`, but the code returns `1` (an
Unknown node fails the `status !== "U"` test and contributes no factor). -/
theorem successProbability_claim_counterexample :
    linearPolicyInit policySelfLoop 10 = some linearCursorSelfLoop ∧
    statusAt policySelfLoop (linearCursorSelfLoop.steps.getD 0 0) 0 = .U ∧
    successProbability graphOneUnknown policySelfLoop
      linearCursorSelfLoop 0 = 1 ∧
    successProbabilityClaim graphOneUnknown policySelfLoop
      linearCursorSelfLoop 0 = 3 / 4 := by
  have hfilter : ((List.range (stateStr policySelfLoop
      (linearCursorSelfLoop.steps.getD 0 0)).length).filter
      (fun i => (stateStr policySelfLoop
        (linearCursorSelfLoop.steps.getD 0 0)).getD i .undefined = .U)) = [0] := by
    decide
  refine ⟨by decide, by decide, by decide, ?_⟩
  simp only [successProbabilityClaim]
  rw [hfilter]
  norm_num [graphOneUnknown]

/-!
## The rendering graph: `Graph._setState` / `Graph.setState`

The graph state relevant to `setState`: per-node `status`, and per-branch
endpoint pair `nodes` (reversed in place to encode direction) with an
`energized` flag (0/1/2).  `node.branches` — built at render time — lists
the incident branches in branch order; reversing an endpoint pair does not
change incidence, so the model recomputes the adjacency from the current
branch list.  Thrown exceptions (the `_setState` length `Error`, and the
final pass's `TypeError` from iterating the never-assigned
`lastEnergizedBranches`) become error values carried next to the already
mutated graph, since the source throws out of a method that mutates the
graph in place.
-/

/-- A branch `{ nodes: [i0, i1], energized }`. -/
structure GBranch where
  nodes : List Int
  energized : Int
deriving DecidableEq, Repr

/-- The mutable graph state. -/
structure GraphState where
  nodes : List GNode
  branches : List GBranch
deriving DecidableEq, Repr

/-- The failures `Graph.setState` can raise: the `_setState` length error
(`"State length is not equal to nodes.length " + n`) and the final pass's
`TypeError` (`lastEnergizedBranches is not iterable`). -/
inductive GraphError where
  | lengthMismatch (expected : Nat) : GraphError
  | notIterable : GraphError
deriving DecidableEq, Repr

/-- `Graph._setState(state)`: the length check comes first (no mutation on
error), then each node's status becomes `-1` for `"D"`, `0` for `"U"`, and
otherwise `1` if it was positive, else `2`. -/
def setStateOne (g : GraphState) (state : List NodeStatus) :
    Except GraphError GraphState :=
  if state.length ≠ g.nodes.length then
    .error (.lengthMismatch g.nodes.length)
  else
    .ok { g with nodes := g.nodes.zipWith (fun nd s =>
      { nd with status := match s with
          | .D => -1
          | .U => 0
          | _ => if nd.status > 0 then 1 else 2 }) state }

/-- `Graph.emptyState()`: every node status `0`, every branch de-energized. -/
def emptyGraphState (g : GraphState) : GraphState :=
  { g with
      nodes := g.nodes.map (fun nd => { nd with status := 0 })
      branches := g.branches.map (fun b => { b with energized := 0 }) }

/-- The indices of the branches incident to node `i`, in branch order — the
render-time `this.nodes[i].branches` adjacency list (a branch with both
endpoints equal to `i` is listed once here; the render loop would list it
twice, a case no well-formed graph has). -/
def incidentBranches (g : GraphState) (i : Nat) : List Nat :=
  (List.range g.branches.length).filter (fun j =>
    (g.branches.getD j ⟨[], 0⟩).nodes.getD 0 (-1) = (i : Int) ∨
    (g.branches.getD j ⟨[], 0⟩).nodes.getD 1 (-1) = (i : Int))

/-- One `diffs` entry `{ i, potentials }`. -/
structure Diff where
  i : Nat
  potentials : List Int
deriving DecidableEq, Repr

/-- A status-string lookup at a JS (possibly negative) index. -/
def statusIdx (l : List NodeStatus) (k : Int) : NodeStatus :=
  getIntD l k .undefined

/-- The `diffs` list built for one consecutive snapshot pair
(`lastState`, `s`): every node whose status changed to a non-`"D"` value,
together with the incident neighbours whose previous status equals the
node's new status; nodes with no such neighbour are dropped. -/
def computeDiffs (g : GraphState) (lastState s : List NodeStatus) :
    List Diff :=
  (List.range s.length).filterMap (fun i =>
    if lastState.getD i .undefined ≠ s.getD i .undefined ∧ s.getD i .undefined ≠ .D then
      let potentials := (incidentBranches g i).filterMap (fun j =>
        let b := g.branches.getD j ⟨[], 0⟩
        let other := if b.nodes.getD 0 (-1) = (i : Int) then b.nodes.getD 1 (-1)
          else b.nodes.getD 0 (-1)
        if statusIdx lastState other = s.getD i .undefined then some other
        else none)
      if potentials ≠ [] then some ⟨i, potentials⟩ else none
    else none)

/-- The index of the minimum-ambiguity diff: the source scans from index 1
keeping the earliest strict minimum (scanning from 0 is identical). -/
def minDiffIdx (diffs : List Diff) : Nat :=
  (List.range diffs.length).foldl (fun m j =>
    if (diffs.getD j ⟨0, []⟩).potentials.length <
        (diffs.getD m ⟨0, []⟩).potentials.length then j else m) 0

/-- The `while (diffs.length > 0)` marking loop.  Each iteration splices the
minimum-ambiguity entry out, takes its first potential as `source`, finds
the first incident branch of `target` matching either orientation, orients
it `source → target` (reversing if needed), marks it energized and records
its index in `lastEnergizedBranches`.  Fuel is the initial `diffs.length`
(one entry is removed per iteration). -/
def markLoop (g : GraphState) : Nat → List Diff → List Nat →
    GraphState × List Nat
  | 0, _, leb => (g, leb)
  | fuel + 1, diffs, leb =>
      if diffs = [] then (g, leb)
      else
        let m := minDiffIdx diffs
        let d := diffs.getD m ⟨0, []⟩
        let rest := diffs.eraseIdx m
        let source := d.potentials.getD 0 (-1)
        let target := (d.i : Int)
        match (incidentBranches g d.i).find? (fun j =>
          let b := g.branches.getD j ⟨[], 0⟩
          (b.nodes.getD 0 (-1) = target ∧ b.nodes.getD 1 (-1) = source) ∨
          (b.nodes.getD 0 (-1) = source ∧ b.nodes.getD 1 (-1) = target)) with
        | some j =>
            let b := g.branches.getD j ⟨[], 0⟩
            if b.nodes.getD 0 (-1) = target ∧ b.nodes.getD 1 (-1) = source then
              let rev : GBranch := { nodes := b.nodes.reverse, energized := 1 }
              markLoop { g with branches := g.branches.set j rev } fuel
                rest (leb ++ [j])
            else
              let en : GBranch := { b with energized := 1 }
              markLoop { g with branches := g.branches.set j en } fuel
                rest (leb ++ [j])
        | none => markLoop g fuel rest leb

/-- The snapshot loop of `Graph.setState(hist)` together with the final
marking pass.  `lastState` and `lastEnergizedBranches` start out undefined
(`none`); iterating an undefined `lastEnergizedBranches` at the end is the
`TypeError` of C10. -/
def setStateLoop : GraphState → Option (List NodeStatus) → Option (List Nat) →
    List (List NodeStatus) → GraphState × Option GraphError
  | g, _, none, [] => (g, some .notIterable)
  | g, _, some idxs, [] =>
      ({ g with branches := idxs.foldl (fun bs j =>
          bs.set j ({ bs.getD j ⟨[], 0⟩ with energized := 2 })) g.branches },
        none)
  | g, lastState, leb, s :: rest =>
      match setStateOne g s with
      | .error e => (g, some e)
      | .ok g' =>
          match lastState with
          | none => setStateLoop g' (some s) leb rest
          | some ls =>
              let diffs := computeDiffs g' ls s
              let res := markLoop g' diffs.length diffs []
              setStateLoop res.1 (some s) (some res.2) rest

/-- `Graph.setState(hist)`: `emptyState()` first, then the snapshot loop. -/
def graphSetState (g : GraphState) (hist : List (List NodeStatus)) :
    GraphState × Option GraphError :=
  setStateLoop (emptyGraphState g) none none hist

lemma emptyGraphState_nodes_length (g : GraphState) :
    (emptyGraphState g).nodes.length = g.nodes.length := by
  simp [emptyGraphState]

lemma setStateOne_ok_nodes_length (g g' : GraphState) (s : List NodeStatus)
    (h : setStateOne g s = .ok g') : g'.nodes.length = g.nodes.length := by
  unfold setStateOne at h
  split at h
  · cases h
  · cases h
    simp_all [List.length_zipWith]

lemma markLoop_nodes (g : GraphState) (fuel : Nat) (diffs : List Diff)
    (leb : List Nat) : (markLoop g fuel diffs leb).1.nodes = g.nodes := by
  induction fuel generalizing g diffs leb with
  | zero => rfl
  | succ f ih =>
    rw [markLoop]
    by_cases hd : diffs = []
    · rw [if_pos hd]
    · rw [if_neg hd]
      dsimp only
      split
      · split
        · rw [ih]
        · rw [ih]
      · rw [ih]

lemma setStateLoop_error_of_badLength (N : Nat) :
    ∀ (hist : List (List NodeStatus)) (g : GraphState)
      (ls : Option (List NodeStatus)) (leb : Option (List Nat)),
    g.nodes.length = N →
    (∃ s ∈ hist, s.length ≠ N) →
    (setStateLoop g ls leb hist).2 = some (.lengthMismatch N) := by
  intro hist
  induction hist with
  | nil =>
    intro g ls leb _ hbad
    obtain ⟨s, hs, _⟩ := hbad
    exact absurd hs (List.not_mem_nil s)
  | cons s rest ih =>
    intro g ls leb hlen hbad
    by_cases hs : s.length ≠ N
    · have herr : setStateOne g s = .error (.lengthMismatch g.nodes.length) := by
        unfold setStateOne
        rw [if_pos (by rw [hlen]; exact hs)]
      cases ls with
      | none =>
        simp only [setStateLoop, herr, hlen]
      | some ls0 =>
        simp only [setStateLoop, herr, hlen]
    · push_neg at hs
      obtain ⟨g', hok⟩ : ∃ g', setStateOne g s = .ok g' := by
        unfold setStateOne
        rw [if_neg (by rw [hlen]; omega)]
        exact ⟨_, rfl⟩
      have hbadrest : ∃ t ∈ rest, t.length ≠ N := by
        obtain ⟨t, ht, htlen⟩ := hbad
        rcases List.mem_cons.mp ht with rfl | htr
        · exact absurd hs (by omega)
        · exact ⟨t, htr, htlen⟩
      have hlen' : g'.nodes.length = N := by
        rw [setStateOne_ok_nodes_length g g' s hok, hlen]
      cases ls with
      | none =>
        simp only [setStateLoop, hok]
        exact ih _ _ _ hlen' hbadrest
      | some ls0 =>
        simp only [setStateLoop, hok]
        refine ih _ _ _ ?_ hbadrest
        rw [markLoop_nodes]
        exact hlen'

/-- C9 (amended): a snapshot whose length differs from the node count makes
`setState` fail with the descriptive error carrying the expected length —
but the failed call *does* mutate the graph: `emptyState()` runs before any
length check (and earlier snapshots are applied before the offending one);
in particular, when the first snapshot is malformed, the graph is left in
the `emptyState` reset rather than its prior contents. -/
theorem setState_lengthMismatch :
    (∀ (g : GraphState) (hist : List (List NodeStatus)),
      (∃ s ∈ hist, s.length ≠ g.nodes.length) →
      (graphSetState g hist).2 = some (.lengthMismatch g.nodes.length)) ∧
    (∀ (g : GraphState) (s : List NodeStatus) (hist : List (List NodeStatus)),
      s.length ≠ g.nodes.length →
      (graphSetState g (s :: hist)).1 = emptyGraphState g) := by
  constructor
  · intro g hist hbad
    unfold graphSetState
    exact setStateLoop_error_of_badLength g.nodes.length hist
      (emptyGraphState g) none none (emptyGraphState_nodes_length g) hbad
  · intro g s hist hs
    unfold graphSetState
    have herr : setStateOne (emptyGraphState g) s =
        .error (.lengthMismatch (emptyGraphState g).nodes.length) := by
      unfold setStateOne
      rw [if_pos (by rw [emptyGraphState_nodes_length]; exact hs)]
    simp only [setStateLoop, herr]

/-- A one-node, one-branch graph in a nontrivial configuration (the node
energized with status 2, the branch energized). -/
def graphOneEnergized : GraphState where
  nodes := [⟨2, 0⟩]
  branches := [⟨[0, 0], 1⟩]

/-- C9 counterexample: calling `setState` on `graphOneEnergized` with the
single malformed snapshot `["U", "U"]` (length 2 ≠ 1) raises the length
error — but the graph observed at the failure differs from its prior
contents (the node status was reset to 0 and the branch de-energized), so
"the failed call performs no graph mutation" is false. -/
theorem setState_mutation_counterexample :
    (graphSetState graphOneEnergized [[.U, .U]]).2 =
      some (.lengthMismatch 1) ∧
    (graphSetState graphOneEnergized [[.U, .U]]).1 ≠ graphOneEnergized := by
  refine ⟨by decide, by decide⟩

/-- Witness for the amended C9 at the concrete graph and history. -/
theorem setState_lengthMismatch_witness :
    (∃ s ∈ [[NodeStatus.U, NodeStatus.U]],
      s.length ≠ graphOneEnergized.nodes.length) ∧
    (graphSetState graphOneEnergized [[.U, .U]]).2 =
      some (.lengthMismatch graphOneEnergized.nodes.length) ∧
    (graphSetState graphOneEnergized [[.U, .U]]).1 =
      emptyGraphState graphOneEnergized :=
  ⟨by decide,
    setState_lengthMismatch.1 graphOneEnergized [[.U, .U]] (by decide),
    setState_lengthMismatch.2 graphOneEnergized [.U, .U] [] (by decide)⟩

/-- C10: with fewer than two snapshots — the empty history, or a single
snapshot of correct length — `setState` reaches the final marking pass with
`lastEnergizedBranches` never assigned and fails with the iteration
`TypeError` instead of returning normally; completing without an error
requires at least two snapshots. -/
theorem setState_requires_two_snapshots :
    (∀ g : GraphState, (graphSetState g []).2 = some .notIterable) ∧
    (∀ (g : GraphState) (s : List NodeStatus),
      s.length = g.nodes.length →
      (graphSetState g [s]).2 = some .notIterable) ∧
    (∀ (g : GraphState) (hist : List (List NodeStatus)),
      (graphSetState g hist).2 = none → 2 ≤ hist.length) := by
  refine ⟨fun g => rfl, ?_, ?_⟩
  · intro g s hs
    unfold graphSetState
    obtain ⟨g', hok⟩ : ∃ g', setStateOne (emptyGraphState g) s = .ok g' := by
      unfold setStateOne
      rw [if_neg (by rw [emptyGraphState_nodes_length]; omega)]
      exact ⟨_, rfl⟩
    simp only [setStateLoop, hok]
  · intro g hist hnone
    match hist with
    | [] =>
      simp only [graphSetState, setStateLoop] at hnone
      exact Option.noConfusion hnone
    | [s] =>
      exfalso
      unfold graphSetState at hnone
      cases hok : setStateOne (emptyGraphState g) s with
      | error e =>
        simp only [setStateLoop, hok] at hnone
        exact Option.noConfusion hnone
      | ok g' =>
        simp only [setStateLoop, hok] at hnone
        exact Option.noConfusion hnone
    | s :: t :: rest => simp

/-- Witness for C10: a single correct-length snapshot on the concrete graph
yields the iteration `TypeError`. -/
theorem setState_requires_two_snapshots_witness :
    ([NodeStatus.U] : List NodeStatus).length =
      graphOneEnergized.nodes.length ∧
    (graphSetState graphOneEnergized [[.U]]).2 = some .notIterable :=
  ⟨by decide,
    setState_requires_two_snapshots.2.1 graphOneEnergized [.U] (by decide)⟩
